import Mathlib

/-!
Verification of the golinkinterceptor capture/replay pipeline.

This file shallowly embeds the two programs of the repository
(`cmd/interceptor/main.go`, the capture pipeline, and the executor program,
the replay pipeline) as executable Lean definitions, and proves or refutes
the frozen specification claims against them.

Modelling conventions:
* Go strings are Lean `String`s; Go byte-wise operations are modelled on
  `List Char` (all inputs of interest are ASCII, where the two coincide).
* The SQLite tables are lists of row structures; AUTOINCREMENT counters are
  explicit fields.  Uniqueness / primary-key constraints are checked by the
  insert operations, which return an error exactly when SQLite would.
* Fallible Go functions return `Option String × DB` (error message, database
  state after the statements executed so far) or `Except`.
-/

/-! ## Go standard-library models -/

/-- Model of Go `strings.Split(s, sep)` for a one-character separator,
on character lists.  `strings.Split` splits around every occurrence of the
separator; consecutive separators produce empty fields and the result is
never empty. -/
def goSplitCharList (sep : Char) : List Char → List (List Char)
  | [] => [[]]
  | c :: rest =>
    if c = sep then [] :: goSplitCharList sep rest
    else
      match goSplitCharList sep rest with
      | [] => [[c]]
      | t :: ts => (c :: t) :: ts

/-- Model of Go `strings.Split(s, sep)` for a one-character separator. -/
def goSplit (sep : Char) (s : String) : List String :=
  (goSplitCharList sep s.toList).map String.mk

/-- `strings.Split(s, " ")`, the tokenizer used by `insertLinkCommand`. -/
def goSplitSpace (s : String) : List String := goSplit ' ' s

/-- Model of Go `strings.Cut(s, sep)` (one-character separator) on character
lists: split at the first occurrence; `none` when the separator is absent. -/
def cutList (sep : Char) : List Char → Option (List Char × List Char)
  | [] => none
  | c :: rest =>
    if c = sep then some ([], rest)
    else
      match cutList sep rest with
      | none => none
      | some (a, b) => some (c :: a, b)

/-- Model of Go `strings.Cut(s, sep)` for a one-character separator. -/
def goCut (sep : Char) (s : String) : Option (String × String) :=
  (cutList sep s.toList).map (fun p => (String.mk p.1, String.mk p.2))

/-- Model of Go `strings.HasPrefix(s, pre)`. -/
def goStartsWith (s pre : String) : Bool :=
  pre.toList.isPrefixOf s.toList

/-- Model of Go `strings.Contains(s, sub)`. -/
def goContains (s sub : String) : Bool :=
  decide (List.IsInfix sub.toList s.toList)

/-- Go regexp character class `\s` = `[\t\n\f\r ]`. -/
def isGoSpace (c : Char) : Bool :=
  c = ' ' || c = '\t' || c = '\n' || c = '\x0c' || c = '\r'

/-- Go regexp character class `\w` = `[0-9A-Za-z_]`. -/
def isWordChar (c : Char) : Bool :=
  c.isAlphanum || c = '_'

/-- Association-list lookup, modelling a Go map read. -/
def mapLookup {α : Type} (m : List (String × α)) (k : String) : Option α :=
  (m.find? (fun p => p.1 == k)).map (fun p => p.2)

/-- Association-list update, modelling a Go map write `m[k] = v`. -/
def mapSet {α : Type} (m : List (String × α)) (k : String) (v : α) : List (String × α) :=
  if m.any (fun p => p.1 == k) then
    m.map (fun p => if p.1 == k then (k, v) else p)
  else m ++ [(k, v)]

/-- Model of `filesContent[k] = append(filesContent[k], v)` on the staged-file
map of the trace parser. -/
def mapAppend (m : List (String × List String)) (k : String) (v : String) :
    List (String × List String) :=
  if m.any (fun p => p.1 == k) then
    m.map (fun p => if p.1 == k then (p.1, p.2 ++ [v]) else p)
  else m ++ [(k, [v])]

/-- Lexicographic less-or-equal on character lists: the model of Go's
byte-wise string comparison (the two coincide on ASCII data). -/
def lexLeb : List Char → List Char → Bool
  | [], _ => true
  | _ :: _, [] => false
  | a :: as, b :: bs =>
    if a < b then true
    else if a = b then lexLeb as bs
    else false

/-- Go string comparison `a <= b`. -/
def goStrLeb (a b : String) : Bool := lexLeb a.toList b.toList

/-- Insertion into a lexicographically sorted list of strings; building block
of the model of Go `slices.Sort`. -/
def insertSorted (x : String) : List String → List String
  | [] => [x]
  | y :: ys => if goStrLeb x y then x :: y :: ys else y :: insertSorted x ys

/-- Model of Go `slices.Sort` on string slices (as used by `parseConfig` on
the build-tag list): the deterministic ascending sort of the input.  Note that
it does NOT remove duplicate elements, exactly like `slices.Sort`. -/
def goSortStrings (l : List String) : List String :=
  l.foldr insertSorted []

/-! ## Trace parser (`parseGoBuildOutput`) -/

/-- Matcher for the variable-declaration regexp `^(\w+)=(\S*)$` used by
`parseGoBuildOutput`: the name is the maximal word-character run before the
first `=`, and the value must contain no whitespace. -/
def matchEnvVarDef (line : String) : Option (String × String) :=
  match cutList '=' line.toList with
  | none => none
  | some (name, val) =>
    if !name.isEmpty && name.all isWordChar && val.all (fun c => !isGoSpace c) then
      some (String.mk name, String.mk val)
    else none

/-- Strip a literal leading pattern from a character list
(deterministic matcher for an anchored literal regexp fragment). -/
def stripLeading : List Char → List Char → Option (List Char)
  | [], cs => some cs
  | _ :: _, [] => none
  | p :: ps, c :: cs => if c = p then stripLeading ps cs else none

/-- The literal fragment between the staged-file name and the optional
trailing comment of the begin-staged-file marker. -/
def eofQuoted : List Char := ['<', '<', ' ', '\'', 'E', 'O', 'F', '\'']

/-- Matcher for the begin-staged-file regexp used by `parseGoBuildOutput`
(`cat >` , optional spaces, the file name as a maximal non-whitespace run,
optional spaces, the quoted EOF here-doc marker, then an optional `#` comment).
The model resolves the file name greedily, which agrees with the regexp on
every line whose file name is followed by a space, as in real traces. -/
def matchStartFile (line : String) : Option String :=
  match stripLeading "cat >".toList line.toList with
  | none => none
  | some r1 =>
    let r2 := r1.dropWhile (fun c => c = ' ')
    let file := r2.takeWhile (fun c => !isGoSpace c)
    if file.isEmpty then none
    else
      let r3 := (r2.drop file.length).dropWhile (fun c => c = ' ')
      match stripLeading eofQuoted r3 with
      | none => none
      | some r4 =>
        match r4.dropWhile (fun c => c = ' ') with
        | [] => some (String.mk file)
        | '#' :: _ => some (String.mk file)
        | _ => none

/-- Suffix of `cs` after the last occurrence of `needle`, if any.  This is the
submatch of the link-command regexp `^.*TOOLDIR/link (.*)$`: the greedy `.*`
makes the capture start after the last occurrence of the quoted literal. -/
def suffixAfterLast (needle : List Char) : List Char → Option (List Char)
  | [] => none
  | c :: rest =>
    match suffixAfterLast needle rest with
    | some s => some s
    | none => stripLeading needle (c :: rest)

/-- Matcher for the link-command regexp of `parseGoBuildOutput`: a line
containing `<toolDir>/link ` captures everything after its last occurrence. -/
def matchLinkCommand (toolDir : String) (line : String) : Option String :=
  (suffixAfterLast (toolDir ++ "/link ").toList line.toList).map String.mk

/-- Model of the `envVarRe.ReplaceAllStringFunc` pass: each `$NAME` reference
(`\$\w+`, greedy name) is replaced by the mapped value when the name is known
and left untouched otherwise; replacements are not re-scanned.  The scan is
written with an explicit fuel argument so that it is structurally recursive
(and hence evaluates by kernel reduction); the fuel only needs to bound the
number of characters consumed, and `substVars` passes the list length, which
always suffices, so the fuel-exhausted branch is unreachable. -/
def substVarsFuel (env : List (String × String)) : Nat → List Char → List Char
  | 0, _ => []
  | _ + 1, [] => []
  | fuel + 1, c :: rest =>
    if c = '$' then
      let name := rest.takeWhile isWordChar
      if name.isEmpty then c :: substVarsFuel env fuel rest
      else
        match mapLookup env (String.mk name) with
        | some v => v.toList ++ substVarsFuel env fuel (rest.drop name.length)
        | none => c :: (name ++ substVarsFuel env fuel (rest.drop name.length))
    else c :: substVarsFuel env fuel rest

/-- The variable-substitution pass over one line. -/
def substVars (env : List (String × String)) (cs : List Char) : List Char :=
  substVarsFuel env cs.length cs

/-- The variable-substituted form of one raw trace line. -/
def substLine (env : List (String × String)) (rawLine : String) : String :=
  String.mk (substVars env rawLine.toList)

/-- Mutable state of the single forward pass of `parseGoBuildOutput`:
the active staged file (empty string = none, as in the Go code), the declared
variables, the staged-file contents and the captured link-command lines. -/
structure ParseState where
  currentFile : String
  envVarMap : List (String × String)
  filesContent : List (String × List String)
  linkCommands : List String
deriving DecidableEq

/-- Initial parser state. -/
def initParseState : ParseState := ⟨"", [], [], []⟩

/-- The `switch` of the scanner loop of `parseGoBuildOutput`, applied to the
already variable-substituted line.  The branch order is exactly the order of
the Go `switch` cases: variable declaration first, then the `EOF` terminator,
then append-to-active-file, then the begin-staged-file marker, then the link
command, then ignore. -/
def classifyLine (toolDir : String) (st : ParseState) (line : String) : ParseState :=
  match matchEnvVarDef line with
  | some (n, v) => { st with envVarMap := mapSet st.envVarMap n v }
  | none =>
    if line = "EOF" then { st with currentFile := "" }
    else if st.currentFile ≠ "" then
      { st with filesContent := mapAppend st.filesContent st.currentFile line }
    else
      match matchStartFile line with
      | some f => { st with currentFile := f }
      | none =>
        match matchLinkCommand toolDir line with
        | some args => { st with linkCommands := st.linkCommands ++ [args] }
        | none => st

/-- One iteration of the scanner loop of `parseGoBuildOutput`: substitute the
declared variables into the raw line, then classify it. -/
def parseLine (toolDir : String) (st : ParseState) (rawLine : String) : ParseState :=
  classifyLine toolDir st (substLine st.envVarMap rawLine)

/-- Model of `parseGoBuildOutput`: fold the scanner over the trace lines and
return the captured link commands and the staged-file contents. -/
def parseGoBuildOutput (toolDir : String) (lines : List String) :
    List String × List (String × List String) :=
  let st := lines.foldl (parseLine toolDir) initParseState
  (st.linkCommands, st.filesContent)

/-! ## Cache store (SQLite schema of `openOrCreateDB`) -/

/-- A row of the `link_command` table: one LinkInvocation, unique on
`(binary_name, build_tags_id)`, with a nullable entry-artifact reference. -/
structure LinkCommandRow where
  id : Nat
  binaryName : String
  buildTagsID : Nat
  mainPackageID : Option Nat
deriving DecidableEq

/-- A row of the `link_command_args` table: one positional argument, primary
key `(link_command_id, pos)`. -/
structure ArgRow where
  linkCommandID : Nat
  pos : Nat
  arg : String
deriving DecidableEq

/-- A row of the `build_tags` table: one TagSet, unique on its canonical
(sorted) tag array.  The JSONB serialization of the array is injective, so the
model keys directly on the array. -/
structure BuildTagsRow where
  id : Nat
  tags : List String
deriving DecidableEq

/-- A row of the `package_file` table: one Artifact, with a globally unique
file path. -/
structure PackageFileRow where
  id : Nat
  pkg : String
  file : String
deriving DecidableEq

/-- The cache store: the five tables plus the AUTOINCREMENT counters.
`linkCommandPackageFile` holds `(link_command_id, package_file_id)` pairs and
`importcfgAdditionalLines` holds `(link_command_id, line)` pairs, both with a
primary key on the whole pair. -/
structure DB where
  linkCommand : List LinkCommandRow
  linkCommandArgs : List ArgRow
  buildTags : List BuildTagsRow
  packageFile : List PackageFileRow
  linkCommandPackageFile : List (Nat × Nat)
  importcfgAdditionalLines : List (Nat × String)
  nextLinkCommandID : Nat
  nextBuildTagsID : Nat
  nextPackageFileID : Nat
deriving DecidableEq

/-- A freshly created cache store. -/
def emptyDB : DB := ⟨[], [], [], [], [], [], 1, 1, 1⟩

/-- The part of the interceptor `Config` that reaches `writeToDB`:
the `-o` binary name and the (sorted) build tags. -/
structure CaptureConfig where
  binaryName : String
  buildTags : List String
deriving DecidableEq

/-! ## Capture pipeline write path -/

/-- Model of `insertBuildTags`: `INSERT ... ON CONFLICT DO NOTHING` on the
unique `tags` column, then fetch the existing id when the insert did not take
(the insert-or-fetch upsert of the Go code). -/
def insertBuildTags (db : DB) (tags : List String) : Nat × DB :=
  match db.buildTags.find? (fun r => r.tags == tags) with
  | some r => (r.id, db)
  | none =>
    (db.nextBuildTagsID,
      { db with
        buildTags := db.buildTags ++ [⟨db.nextBuildTagsID, tags⟩]
        nextBuildTagsID := db.nextBuildTagsID + 1 })

/-- The per-token substitution of the argument loop of `insertLinkCommand`:
a token whose previous (already substituted) token is `-o` or `-importcfg` is
stored as the `PLACEHOLDER` sentinel, every other token is stored literally. -/
def captureTok (prev t : String) : String :=
  if prev = "-o" then "PLACEHOLDER"
  else if prev = "-importcfg" then "PLACEHOLDER"
  else t

/-- The stream of stored argument values produced by the loop of
`insertLinkCommand`, threading the previous stored value. -/
def captureArgsList (prev : String) : List String → List String
  | [] => []
  | t :: rest =>
    let a := captureTok prev t
    a :: captureArgsList a rest

/-- The `importcfg` value remembered by the loop of `insertLinkCommand`:
the literal token following the `-importcfg` flag (the last one, if several
occur), threaded exactly as the Go loop does. -/
def captureImportcfg (prev icfg : String) : List String → String
  | [] => icfg
  | t :: rest =>
    let a := captureTok prev t
    captureImportcfg a (if prev = "-importcfg" then t else icfg) rest

/-- One `INSERT INTO link_command_args` per `(pos, arg)` pair; the primary key
`(link_command_id, pos)` makes a duplicate insert fail. -/
def insertArgRowsLoop (db : DB) (id : Nat) : List (Nat × String) → Option String × DB
  | [] => (none, db)
  | (pos, arg) :: rest =>
    if db.linkCommandArgs.any (fun r => r.linkCommandID == id && r.pos == pos) then
      (some "unable to insert link command argument", db)
    else
      insertArgRowsLoop
        { db with linkCommandArgs := db.linkCommandArgs ++ [⟨id, pos, arg⟩] } id rest

/-- Model of `insertLinkCommand`: a plain `INSERT INTO link_command` (no
conflict clause), which fails on the `UNIQUE (binary_name, build_tags_id)`
constraint when the key already exists; on success, the link command line is
split on single spaces and the argument rows are inserted with the
`PLACEHOLDER` substitution.  Returns the new row id and the remembered
importcfg path.  (The fallback SELECT of the Go code is unreachable: a plain
insert either errors or affects one row.) -/
def insertLinkCommand (db : DB) (binaryName : String) (buildTagsID : Nat)
    (linkCommand : String) : Except String (Nat × String) × DB :=
  if db.linkCommand.any (fun r => r.binaryName == binaryName && r.buildTagsID == buildTagsID) then
    (.error "unable to insert link command: UNIQUE constraint failed", db)
  else
    let id := db.nextLinkCommandID
    let db2 :=
      { db with
        linkCommand := db.linkCommand ++ [⟨id, binaryName, buildTagsID, none⟩]
        nextLinkCommandID := id + 1 }
    let toks := goSplitSpace linkCommand
    match insertArgRowsLoop db2 id (captureArgsList "" toks).enum with
    | (some e, db3) => (.error e, db3)
    | (none, db3) => (.ok (id, captureImportcfg "" "" toks), db3)

/-- `INSERT INTO link_command_package_file`: plain insert on the pair primary
key. -/
def insertLinkCommandPackageFile (db : DB) (id pid : Nat) : Option String × DB :=
  if db.linkCommandPackageFile.any (fun p => p.1 == id && p.2 == pid) then
    (some "unable to insert link command package file", db)
  else
    (none, { db with linkCommandPackageFile := db.linkCommandPackageFile ++ [(id, pid)] })

/-- Model of `insertPackageFile`: parse `packagefile NAME=FILE` with two
`strings.Cut` calls (malformed lines are a hard error), upsert the Artifact on
the unique `file` column (the fallback SELECT matches on package AND file, so
a path already stored under a different package name is an error), then
associate it with the invocation. -/
def insertPackageFile (db : DB) (id : Nat) (line : String) : Option String × DB :=
  match goCut ' ' line with
  | none => (some "invalid line", db)
  | some (directive, argument) =>
    if directive ≠ "packagefile" then (some "invalid line", db)
    else
      match goCut '=' argument with
      | none => (some "invalid line", db)
      | some (packageName, file) =>
        match db.packageFile.find? (fun r => r.file == file) with
        | some r =>
          if r.pkg == packageName then insertLinkCommandPackageFile db id r.id
          else (some "unable to get package file ID", db)
        | none =>
          let pid := db.nextPackageFileID
          let db2 :=
            { db with
              packageFile := db.packageFile ++ [⟨pid, packageName, file⟩]
              nextPackageFileID := pid + 1 }
          insertLinkCommandPackageFile db2 id pid

/-- Model of `insertAdditionalLines`: plain insert on the
`(link_command_id, line)` primary key. -/
def insertAdditionalLines (db : DB) (id : Nat) (line : String) : Option String × DB :=
  if db.importcfgAdditionalLines.any (fun p => p.1 == id && p.2 == line) then
    (some "unable to insert additional lines", db)
  else
    (none,
      { db with importcfgAdditionalLines := db.importcfgAdditionalLines ++ [(id, line)] })

/-- The last stored argument of an invocation: the SQL
`SELECT arg ... ORDER BY pos DESC LIMIT 1` of `updateLinkCommand`. -/
def lastArgOf (rows : List ArgRow) (id : Nat) : Option String :=
  ((rows.filter (fun r => r.linkCommandID == id)).foldl
    (fun (acc : Option ArgRow) (r : ArgRow) =>
      match acc with
      | none => some r
      | some m => if r.pos ≥ m.pos then some r else some m) none).map (fun r => r.arg)

/-- Model of `updateLinkCommand`: set `main_package_id` to the id of the
Artifact whose file path equals the last stored argument (NULL when there is
none), then rewrite every argument row of this invocation equal to that file
path to the `MAIN PACKAGE` sentinel (no row when the subquery is NULL). -/
def updateLinkCommand (db : DB) (id : Nat) : DB :=
  let mainPid : Option Nat :=
    (lastArgOf db.linkCommandArgs id).bind
      (fun (f : String) =>
        (db.packageFile.find? (fun r => r.file == f)).map (fun r => r.id))
  let db1 : DB :=
    { db with
      linkCommand :=
        db.linkCommand.map
          (fun (r : LinkCommandRow) =>
            if r.id == id then { r with mainPackageID := mainPid } else r) }
  let mainFile : Option String :=
    mainPid.bind
      (fun (pid : Nat) =>
        (db1.packageFile.find? (fun r => r.id == pid)).map (fun r => r.file))
  { db1 with
    linkCommandArgs :=
      db1.linkCommandArgs.map
        (fun (r : ArgRow) =>
          if r.linkCommandID == id && some r.arg == mainFile then
            { r with arg := "MAIN PACKAGE" }
          else r) }

/-- The importcfg-content loop of `writeToDB`: `packagefile`-prefixed lines go
through `insertPackageFile`, the rest through `insertAdditionalLines`; the
first error aborts the loop. -/
def processImportcfgLines (db : DB) (id : Nat) : List String → Option String × DB
  | [] => (none, db)
  | line :: rest =>
    match
      (if goStartsWith line "packagefile" then insertPackageFile db id line
       else insertAdditionalLines db id line) with
    | (some e, db2) => (some e, db2)
    | (none, db2) => processImportcfgLines db2 id rest

/-- The per-link-command loop of `writeToDB`. -/
def writeLinkCommands (cfg : CaptureConfig) (buildTagsID : Nat)
    (filesContent : List (String × List String)) (db : DB) :
    List String → Option String × DB
  | [] => (none, db)
  | cmd :: rest =>
    match insertLinkCommand db cfg.binaryName buildTagsID cmd with
    | (.error e, db2) => (some e, db2)
    | (.ok (id, icfg), db2) =>
      match processImportcfgLines db2 id ((mapLookup filesContent icfg).getD []) with
      | (some e, db3) => (some e, db3)
      | (none, db3) => writeLinkCommands cfg buildTagsID filesContent (updateLinkCommand db3 id) rest

/-- Model of `writeToDB`.  The Go function runs inside one transaction whose
deferred cleanup calls `tx.Commit()` unconditionally — there is no rollback
path — so the rows staged before a mid-sequence failure are committed all the
same.  The model therefore returns, next to the error, the database state
reached when the failure occurred: that state is the committed one. -/
def writeToDB (db : DB) (cfg : CaptureConfig) (linkCommands : List String)
    (filesContent : List (String × List String)) : Option String × DB :=
  let r := insertBuildTags db cfg.buildTags
  writeLinkCommands cfg r.1 filesContent r.2 linkCommands

/-! ## Capture pipeline orchestration (`main` of the interceptor) -/

/-- Model of `areAllFilesInCache`: false iff some staged-file line starts with
`packagefile` and does not contain the GOCACHE directory. -/
def areAllFilesInCache (gocache : String) (filesContent : List (String × List String)) : Bool :=
  filesContent.all (fun fc =>
    fc.2.all (fun line => !(goStartsWith line "packagefile" && !goContains line gocache)))

/-- The cache-warming loop of the interceptor `main`:
`for allFilesInCache, remainingAttempts := false, 3; !allFilesInCache &&
remainingAttempts > 0; remainingAttempts--`.  The build-and-parse of attempt
`n` is abstracted as `builds n`.  Returns the number of attempts executed, the
final stability flag and the final parse result. -/
def captureAttempts (gocache : String)
    (builds : Nat → List String × List (String × List String)) :
    Nat → Nat → Bool → List String × List (String × List String) →
    Nat × Bool × (List String × List (String × List String))
  | n, 0, allIn, cur => (n, allIn, cur)
  | n, remaining + 1, allIn, cur =>
    if allIn then (n, allIn, cur)
    else
      let b := builds n
      captureAttempts gocache builds (n + 1) remaining (areAllFilesInCache gocache b.2) b

/-- The tail of the interceptor `main`: run the cache-warming loop, then call
`writeToDB` with the last parse result.  Faithful to the Go code, the call is
unconditional — the final `allFilesInCache` flag is never consulted after the
loop. -/
def captureMain (gocache : String)
    (builds : Nat → List String × List (String × List String))
    (db : DB) (cfg : CaptureConfig) : Option String × DB :=
  let r := captureAttempts gocache builds 0 3 false ([], [])
  writeToDB db cfg r.2.2.1 r.2.2.2

/-! ## Replay pipeline (executor) -/

/-- Outcome of the executor's invocation lookup (`getLinkCommandID`).
A missing row hits the `sql.ErrNoRows` branch: a dedicated message on stderr
and `os.Exit(1)`.  A row whose `main_package_id` resolves to NULL makes
`row.Scan` into a Go `string` fail, which `main` turns into `log.Fatalf`. -/
inductive LookupOutcome where
  | cacheMiss (binaryName : String) (buildTags : List String) (exitCode : Nat)
  | scanError (msg : String)
  | ok (linkCommandID : Nat) (mainPackage : String)
deriving DecidableEq

/-- `log.Fatalf` prints and calls `os.Exit(1)`: the generic fatal exit
status of both programs. -/
def goLogFatalExitCode : Nat := 1

/-- The row selected by the executor's lookup query: `link_command` NATURAL
JOIN `build_tags` (on `build_tags_id`), filtered by binary name and canonical
tag array. -/
def findLinkCommandRow (db : DB) (binaryName : String) (buildTags : List String) :
    Option LinkCommandRow :=
  db.linkCommand.find? (fun r =>
    r.binaryName == binaryName &&
      db.buildTags.any (fun b => b.id == r.buildTagsID && b.tags == buildTags))

/-- Model of `getLinkCommandID`: the LEFT JOIN resolves the entry artifact's
file path, NULL when `main_package_id` is NULL or dangling. -/
def getLinkCommandID (db : DB) (binaryName : String) (buildTags : List String) :
    LookupOutcome :=
  match findLinkCommandRow db binaryName buildTags with
  | none => .cacheMiss binaryName buildTags 1
  | some r =>
    match r.mainPackageID.bind
        (fun pid => (db.packageFile.find? (fun p => p.id == pid)).map (fun p => p.file)) with
    | some file => .ok r.id file
    | none => .scanError "unable to get link command ID: NULL main package"

/-- The process exit status produced by each lookup outcome (`none` = the
pipeline continues). -/
def lookupExitCode : LookupOutcome → Option Nat
  | .cacheMiss _ _ c => some c
  | .scanError _ => some goLogFatalExitCode
  | .ok _ _ => none

/-- The per-argument resolution step of `getLinkerCommandArgs`: a stored
`PLACEHOLDER` preceded by `-o` becomes the fresh binary path and preceded by
`-importcfg` becomes the fresh manifest path (any other predecessor leaves it
unchanged); then a `MAIN PACKAGE` sentinel becomes the entry artifact's file
path. -/
def resolveTok (binName icfgName mainPkg prev arg : String) : String :=
  let a1 :=
    if arg = "PLACEHOLDER" then
      (if prev = "-o" then binName else if prev = "-importcfg" then icfgName else arg)
    else arg
  if a1 = "MAIN PACKAGE" then mainPkg else a1

/-- The row loop of `getLinkerCommandArgs` over the argument rows ordered by
position, threading the previous (already resolved) argument. -/
def replayArgsList (binName icfgName mainPkg : String) (prev : String) :
    List String → List String
  | [] => []
  | a :: rest =>
    let r := resolveTok binName icfgName mainPkg prev a
    r :: replayArgsList binName icfgName mainPkg r rest

/-- The last element of a list (the argument row with the greatest position,
viewing the stored rows through their insertion order). -/
def lastOf : List String → Option String
  | [] => none
  | [a] => some a
  | _ :: b :: rest => lastOf (b :: rest)

/-- The entry-artifact file path `updateLinkCommand` resolves for an ordered
argument list: the Artifact row whose unique file path equals the last stored
argument. -/
def mainFileOf (pkgs : List PackageFileRow) (stored : List String) : Option String :=
  (lastOf stored).bind
    (fun la => ((pkgs.find? (fun r => r.file == la)).map (fun r => r.file)))

/-- The argument-rewrite UPDATE of `updateLinkCommand`, viewed on the ordered
argument list of one invocation: every stored argument equal to the entry
artifact's file path becomes the `MAIN PACKAGE` sentinel. -/
def rewriteMain (f : String) (args : List String) : List String :=
  args.map (fun a => if a = f then "MAIN PACKAGE" else a)

/-- Spec-side definition (for the replay round-trip claim): the expected
resolved token at one position, following the specification's words — the
token after the output-path flag is the fresh output path, the token after
the manifest-path flag is the fresh manifest path, and every other position
keeps the original literal token. -/
def specResolvedTok (binName icfgName : String) (prevTok tok : String) : String :=
  if prevTok = "-o" then binName
  else if prevTok = "-importcfg" then icfgName
  else tok

/-- Spec-side definition: the whole expected replay argument vector, obtained
by resolving each token of the original whitespace-tokenized command line
against its predecessor (the first token has no predecessor). -/
def specReplayVector (binName icfgName : String) (ts : List String) : List String :=
  List.zipWith (specResolvedTok binName icfgName) ("" :: ts) ts

/-- Whether a token is one of the two flags whose successor is replaced by a
placeholder at capture time. -/
def isLinkFlag (t : String) : Bool := t == "-o" || t == "-importcfg"

/-- Well-formedness of a link-command token stream relative to the previous
token: no token collides with the two sentinels, and no placeholder-consuming
flag immediately follows another one.  Real `go build` link commands satisfy
this. -/
def goodChainB (prev : String) : List String → Bool
  | [] => true
  | t :: rest =>
    !(t == "PLACEHOLDER") && !(t == "MAIN PACKAGE") &&
      (!isLinkFlag prev || !isLinkFlag t) && goodChainB t rest

/-- The tail of the executor `main` after a successful linker run
(the `os.Remove(importcfgFileName)` step and the `syscall.Exec` handoff).
When the removal fails, `log.Fatalf` terminates the process; only when it
succeeds does execution reach the process-image replacement, with argv =
the program name followed by the forwarded arguments. -/
inductive ReplayHandoff where
  | fatalRemoveError (importcfgFileName : String)
  | execBinary (path : String) (argv : List String)
deriving DecidableEq

/-- Model of the executor `main` lines between the linker call and the end:
remove the temporary manifest, then replace the process image. -/
def afterLinkerSuccess (removeOk : Bool) (importcfgFileName binaryFileName binaryName : String)
    (fwdArgs : List String) : ReplayHandoff :=
  if removeOk then ReplayHandoff.execBinary binaryFileName (binaryName :: fwdArgs)
  else ReplayHandoff.fatalRemoveError importcfgFileName

/-- Whether the handoff to the linked binary is reached. -/
def ReplayHandoff.reachesExec : ReplayHandoff → Bool
  | .execBinary _ _ => true
  | .fatalRemoveError _ => false

/-- The fingerprint under which an invocation is cached and looked up:
the program name paired with the canonicalized (sorted, duplicates kept)
tag array produced by `parseConfig`. -/
def fingerprint (binaryName : String) (buildTags : List String) : String × List String :=
  (binaryName, goSortStrings buildTags)

/-! ## Concrete inputs used by the claim theorems -/

/-- Capture configuration shared by the concrete scenarios. -/
def cfgFoo : CaptureConfig := ⟨"foo", []⟩

/-- A well-formed captured link command used by several scenarios. -/
def cmdFoo : String := "-o X -importcfg C /p/m.a"

/-- Staged-file contents with a malformed `packagefile` line (no `=`). -/
def fcBroken : List (String × List String) := [("C", ["packagefile broken"])]

/-- Well-formed staged-file contents for `cmdFoo`. -/
def fcGood : List (String × List String) := [("C", ["packagefile main=/p/m.a"])]

/-- The cache store after one successful capture of `cmdFoo` under `cfgFoo`. -/
def dbAfterFirstCapture : DB := (writeToDB emptyDB cfgFoo [cmdFoo] fcGood).2

/-- A GOCACHE directory for the cache-warming scenario. -/
def gocacheEx : String := "/root/.cache/go-build"

/-- A parse result whose packagefile line references a scratch path outside
GOCACHE — the cache never stabilizes. -/
def staleResult : List String × List (String × List String) :=
  (["-o X -importcfg C /tmp/scratch/m.a"], [("C", ["packagefile main=/tmp/scratch/m.a"])])

/-- A build whose trace never stabilizes: every attempt yields `staleResult`. -/
def staleBuilds : Nat → List String × List (String × List String) := fun _ => staleResult

/-- The trace of the parser scenario: a begin-staged-file marker, a
`NAME=VALUE` line inside the staged file, and the terminator. -/
def envInFileTrace : List String :=
  [String.mk ("cat > f ".toList ++ eofQuoted), "FOO=bar", "EOF"]

/-- The cache store of the entry-artifact scenario: one invocation whose last
argument is the file path of the `main` Artifact, next to a `fmt` Artifact. -/
def dbEntryArtifact : DB :=
  { linkCommand := [⟨1, "foo", 1, none⟩]
    linkCommandArgs :=
      [⟨1, 0, "-o"⟩, ⟨1, 1, "PLACEHOLDER"⟩, ⟨1, 2, "-importcfg"⟩, ⟨1, 3, "PLACEHOLDER"⟩,
        ⟨1, 4, "/cache/ab/main.a"⟩]
    buildTags := [⟨1, []⟩]
    packageFile := [⟨1, "main", "/cache/ab/main.a"⟩, ⟨2, "fmt", "/cache/cd/fmt.a"⟩]
    linkCommandPackageFile := [(1, 1), (1, 2)]
    importcfgAdditionalLines := []
    nextLinkCommandID := 2
    nextBuildTagsID := 2
    nextPackageFileID := 3 }

/-! ## Helper lemmas: the byte-wise string order -/

/-- The comparison as a binary relation, for `List.Sorted`. -/
def tagLeP : String → String → Prop := fun a b => goStrLeb a b = true

theorem lexLeb_total : ∀ x y : List Char, lexLeb x y = true ∨ lexLeb y x = true := by
  intro x
  induction x with
  | nil => intro y; left; rfl
  | cons a as ih =>
    intro y
    cases y with
    | nil => right; rfl
    | cons b bs =>
      rcases lt_trichotomy a b with h | h | h
      · left; simp [lexLeb, h]
      · subst h
        rcases ih bs with h2 | h2
        · left; simp [lexLeb, h2]
        · right; simp [lexLeb, h2]
      · right; simp [lexLeb, h]

theorem lexLeb_cons_cons (a b : Char) (as bs : List Char) :
    lexLeb (a :: as) (b :: bs) = true ↔ a < b ∨ (a = b ∧ lexLeb as bs = true) := by
  by_cases h1 : a < b
  · simp [lexLeb, h1]
  · by_cases h2 : a = b
    · subst h2; simp [lexLeb, h1]
    · simp [lexLeb, h1, h2]

theorem lexLeb_trans :
    ∀ x y z : List Char, lexLeb x y = true → lexLeb y z = true → lexLeb x z = true := by
  intro x
  induction x with
  | nil => intro y z _ _; rfl
  | cons a as ih =>
    intro y z hxy hyz
    cases y with
    | nil => exact absurd hxy (by simp [show lexLeb (a :: as) [] = false from rfl])
    | cons b bs =>
      cases z with
      | nil => exact absurd hyz (by simp [show lexLeb (b :: bs) [] = false from rfl])
      | cons c cs =>
        rw [lexLeb_cons_cons] at hxy hyz ⊢
        rcases hxy with hab | ⟨hab, hxy2⟩
        · rcases hyz with hbc | ⟨hbc, _⟩
          · exact Or.inl (lt_trans hab hbc)
          · exact Or.inl (hbc ▸ hab)
        · rcases hyz with hbc | ⟨hbc, hyz2⟩
          · exact Or.inl (hab ▸ hbc)
          · exact Or.inr ⟨hab.trans hbc, ih bs cs hxy2 hyz2⟩

theorem lexLeb_antisymm :
    ∀ x y : List Char, lexLeb x y = true → lexLeb y x = true → x = y := by
  intro x
  induction x with
  | nil =>
    intro y _ hyx
    cases y with
    | nil => rfl
    | cons b bs => exact absurd hyx (by simp [show lexLeb (b :: bs) [] = false from rfl])
  | cons a as ih =>
    intro y hxy hyx
    cases y with
    | nil => exact absurd hxy (by simp [show lexLeb (a :: as) [] = false from rfl])
    | cons b bs =>
      rw [lexLeb_cons_cons] at hxy hyx
      rcases hxy with hab | ⟨hab, hxy2⟩
      · rcases hyx with hba | ⟨hba, _⟩
        · exact absurd (lt_trans hab hba) (lt_irrefl a)
        · exact absurd (hba ▸ hab) (lt_irrefl a)
      · rcases hyx with hba | ⟨_, hyx2⟩
        · exact absurd (hab ▸ hba) (lt_irrefl a)
        · rw [hab, ih bs hxy2 hyx2]

theorem goStrLeb_total (a b : String) : goStrLeb a b = true ∨ goStrLeb b a = true :=
  lexLeb_total a.toList b.toList

theorem goStrLeb_trans (a b c : String) (h1 : goStrLeb a b = true) (h2 : goStrLeb b c = true) :
    goStrLeb a c = true :=
  lexLeb_trans a.toList b.toList c.toList h1 h2

theorem goStrLeb_antisymm (a b : String) (h1 : goStrLeb a b = true) (h2 : goStrLeb b a = true) :
    a = b := by
  have h := lexLeb_antisymm a.toList b.toList h1 h2
  cases a
  cases b
  exact congrArg String.mk h

theorem insertSorted_perm (x : String) (l : List String) :
    (insertSorted x l).Perm (x :: l) := by
  induction l with
  | nil => simp [insertSorted]
  | cons y ys ih =>
    by_cases h : goStrLeb x y = true
    · simp [insertSorted, h]
    · rw [insertSorted, if_neg h]
      exact (ih.cons y).trans (List.Perm.swap x y ys)

theorem goSortStrings_perm (l : List String) : (goSortStrings l).Perm l := by
  induction l with
  | nil => simp [goSortStrings]
  | cons x xs ih =>
    have h1 : goSortStrings (x :: xs) = insertSorted x (goSortStrings xs) := rfl
    rw [h1]
    exact (insertSorted_perm x (goSortStrings xs)).trans (ih.cons x)

theorem sorted_insertSorted (x : String) (l : List String) (h : l.Sorted tagLeP) :
    (insertSorted x l).Sorted tagLeP := by
  induction l with
  | nil => simp [insertSorted, tagLeP]
  | cons y ys ih =>
    rw [List.sorted_cons] at h
    obtain ⟨hy, hys⟩ := h
    by_cases hxy : goStrLeb x y = true
    · rw [insertSorted, if_pos hxy, List.sorted_cons]
      refine ⟨?_, List.sorted_cons.mpr ⟨hy, hys⟩⟩
      intro b hb
      rcases List.mem_cons.mp hb with rfl | hb2
      · exact hxy
      · exact goStrLeb_trans x y b hxy (hy b hb2)
    · have hyx : goStrLeb y x = true := (goStrLeb_total x y).resolve_left hxy
      rw [insertSorted, if_neg hxy, List.sorted_cons]
      constructor
      · intro b hb
        have hmem : b ∈ x :: ys := (insertSorted_perm x ys).mem_iff.mp hb
        rcases List.mem_cons.mp hmem with rfl | hb2
        · exact hyx
        · exact hy b hb2
      · exact ih hys

theorem sorted_goSortStrings (l : List String) : (goSortStrings l).Sorted tagLeP := by
  induction l with
  | nil => simp [goSortStrings]
  | cons x xs ih => exact sorted_insertSorted x (goSortStrings xs) ih

theorem goSortStrings_eq_of_perm (l₁ l₂ : List String) (h : l₁.Perm l₂) :
    goSortStrings l₁ = goSortStrings l₂ := by
  have hp : (goSortStrings l₁).Perm (goSortStrings l₂) :=
    (goSortStrings_perm l₁).trans (h.trans (goSortStrings_perm l₂).symm)
  haveI : IsAntisymm String tagLeP := ⟨fun a b h1 h2 => goStrLeb_antisymm a b h1 h2⟩
  exact List.eq_of_perm_of_sorted hp (sorted_goSortStrings l₁) (sorted_goSortStrings l₂)

/-! ## Helper lemmas: tokenization, capture and replay -/

theorem captureArgsList_cons (prev t : String) (rest : List String) :
    captureArgsList prev (t :: rest) =
      captureTok prev t :: captureArgsList (captureTok prev t) rest := rfl

theorem captureTok_o (t : String) : captureTok "-o" t = "PLACEHOLDER" := by
  simp [captureTok]

theorem captureTok_icfg (t : String) : captureTok "-importcfg" t = "PLACEHOLDER" := by
  simp [captureTok]

theorem captureTok_other (prev t : String) (h1 : prev ≠ "-o") (h2 : prev ≠ "-importcfg") :
    captureTok prev t = t := by
  simp [captureTok, h1, h2]

theorem rewriteMain_cons (f a : String) (l : List String) :
    rewriteMain f (a :: l) = (if a = f then "MAIN PACKAGE" else a) :: rewriteMain f l := rfl

theorem replayArgsList_cons (binName icfgName mainPkg prev a : String) (l : List String) :
    replayArgsList binName icfgName mainPkg prev (a :: l) =
      resolveTok binName icfgName mainPkg prev a ::
        replayArgsList binName icfgName mainPkg (resolveTok binName icfgName mainPkg prev a) l :=
  rfl

theorem resolveTok_placeholder_o (b n m : String) (hb : b ≠ "MAIN PACKAGE") :
    resolveTok b n m "-o" "PLACEHOLDER" = b := by
  simp [resolveTok, hb]

theorem resolveTok_placeholder_icfg (b n m : String) (hn : n ≠ "MAIN PACKAGE") :
    resolveTok b n m "-importcfg" "PLACEHOLDER" = n := by
  simp [resolveTok, hn]

theorem resolveTok_placeholder_other (b n m prev : String)
    (h1 : prev ≠ "-o") (h2 : prev ≠ "-importcfg") :
    resolveTok b n m prev "PLACEHOLDER" = "PLACEHOLDER" := by
  simp [resolveTok, h1, h2]

theorem resolveTok_mainpkg (b n m prev : String) :
    resolveTok b n m prev "MAIN PACKAGE" = m := by
  simp [resolveTok]

theorem resolveTok_literal (b n m prev a : String)
    (h1 : a ≠ "PLACEHOLDER") (h2 : a ≠ "MAIN PACKAGE") :
    resolveTok b n m prev a = a := by
  simp [resolveTok, h1, h2]

theorem specResolvedTok_o (b n t : String) : specResolvedTok b n "-o" t = b := by
  simp [specResolvedTok]

theorem specResolvedTok_icfg (b n t : String) : specResolvedTok b n "-importcfg" t = n := by
  simp [specResolvedTok]

theorem specResolvedTok_other (b n p t : String) (h1 : p ≠ "-o") (h2 : p ≠ "-importcfg") :
    specResolvedTok b n p t = t := by
  simp [specResolvedTok, h1, h2]

theorem not_flag_pair (t : String) (h : isLinkFlag t = false) :
    t ≠ "-o" ∧ t ≠ "-importcfg" := by
  simp only [isLinkFlag, Bool.or_eq_false_iff, beq_eq_false_iff_ne] at h
  exact h

/-- The key replay round-trip induction: resolving the rewritten stored
argument stream step by step reproduces the spec-side expected vector, as long
as the three previous-token pointers (capture-time, original and replay-time)
agree on the two flag tests, which the side conditions preserve. -/
theorem replayReconstructionAux (binName icfgName f : String)
    (hb3 : binName ≠ "MAIN PACKAGE") (hbo : isLinkFlag binName = false)
    (hn3 : icfgName ≠ "MAIN PACKAGE") (hno : isLinkFlag icfgName = false)
    (hfo : isLinkFlag f = false) (hf3 : f ≠ "PLACEHOLDER") (hf4 : f ≠ "MAIN PACKAGE") :
    ∀ (ts : List String) (capPrev origPrev repPrev : String),
      goodChainB origPrev ts = true →
      (capPrev = "-o" ↔ origPrev = "-o") →
      (capPrev = "-importcfg" ↔ origPrev = "-importcfg") →
      (repPrev = "-o" ↔ origPrev = "-o") →
      (repPrev = "-importcfg" ↔ origPrev = "-importcfg") →
      replayArgsList binName icfgName f repPrev (rewriteMain f (captureArgsList capPrev ts)) =
        List.zipWith (specResolvedTok binName icfgName) (origPrev :: ts) ts := by
  intro ts
  induction ts with
  | nil => intro _ _ _ _ _ _ _ _; rfl
  | cons t rest ih =>
    intro capPrev origPrev repPrev hch co ci ro ri
    simp only [goodChainB, Bool.and_eq_true, Bool.not_eq_true', beq_eq_false_iff_ne,
      Bool.or_eq_true] at hch
    obtain ⟨⟨⟨ht1, ht2⟩, ht3⟩, hch2⟩ := hch
    obtain ⟨hb1, hb2⟩ := not_flag_pair binName hbo
    obtain ⟨hn1, hn2⟩ := not_flag_pair icfgName hno
    obtain ⟨hf1, hf2⟩ := not_flag_pair f hfo
    rw [captureArgsList_cons, rewriteMain_cons, List.zipWith_cons_cons]
    by_cases ho : origPrev = "-o"
    · have hcap : capPrev = "-o" := co.mpr ho
      have hrep : repPrev = "-o" := ro.mpr ho
      subst hcap; subst hrep
      have htflag : isLinkFlag t = false := by
        rcases ht3 with h | h
        · exact absurd h (by simp [isLinkFlag, ho])
        · simpa using h
      obtain ⟨hto, hti⟩ := not_flag_pair t htflag
      rw [captureTok_o, if_neg (Ne.symm hf3), replayArgsList_cons,
        resolveTok_placeholder_o binName icfgName f hb3, ho, specResolvedTok_o]
      refine congrArg (binName :: ·) ?_
      exact ih "PLACEHOLDER" t binName hch2
        (iff_of_false (by decide) hto) (iff_of_false (by decide) hti)
        (iff_of_false hb1 hto) (iff_of_false hb2 hti)
    · by_cases hi : origPrev = "-importcfg"
      · have hcap : capPrev = "-importcfg" := ci.mpr hi
        have hrep : repPrev = "-importcfg" := ri.mpr hi
        subst hcap; subst hrep
        have htflag : isLinkFlag t = false := by
          rcases ht3 with h | h
          · exact absurd h (by simp [isLinkFlag, hi])
          · simpa using h
        obtain ⟨hto, hti⟩ := not_flag_pair t htflag
        rw [captureTok_icfg, if_neg (Ne.symm hf3), replayArgsList_cons,
          resolveTok_placeholder_icfg binName icfgName f hn3, hi, specResolvedTok_icfg]
        refine congrArg (icfgName :: ·) ?_
        exact ih "PLACEHOLDER" t icfgName hch2
          (iff_of_false (by decide) hto) (iff_of_false (by decide) hti)
          (iff_of_false hn1 hto) (iff_of_false hn2 hti)
      · have hcap1 : capPrev ≠ "-o" := fun h => ho (co.mp h)
        have hcap2 : capPrev ≠ "-importcfg" := fun h => hi (ci.mp h)
        have hrep1 : repPrev ≠ "-o" := fun h => ho (ro.mp h)
        have hrep2 : repPrev ≠ "-importcfg" := fun h => hi (ri.mp h)
        rw [captureTok_other capPrev t hcap1 hcap2, specResolvedTok_other _ _ _ _ ho hi]
        by_cases htf : t = f
        · rw [if_pos htf, replayArgsList_cons, resolveTok_mainpkg]
          subst htf
          refine congrArg (t :: ·) ?_
          exact ih t t t hch2 Iff.rfl Iff.rfl Iff.rfl Iff.rfl
        · rw [if_neg htf, replayArgsList_cons, resolveTok_literal _ _ _ _ _ ht1 ht2]
          refine congrArg (t :: ·) ?_
          exact ih t t t hch2 Iff.rfl Iff.rfl Iff.rfl Iff.rfl

theorem lastOf_cons_cons (a b : String) (l : List String) :
    lastOf (a :: b :: l) = lastOf (b :: l) := rfl

theorem lastOf_map (g : String → String) :
    ∀ (l : List String), lastOf (l.map g) = (lastOf l).map g := by
  intro l
  induction l with
  | nil => rfl
  | cons a rest ih =>
    cases rest with
    | nil => rfl
    | cons b l2 =>
      simp only [List.map_cons] at ih ⊢
      rw [lastOf_cons_cons, lastOf_cons_cons]
      exact ih

theorem lastOf_captureArgsList :
    ∀ (ts : List String) (prev x : String),
      lastOf (captureArgsList prev ts) = some x →
        x = "PLACEHOLDER" ∨ lastOf ts = some x := by
  intro ts
  induction ts with
  | nil => intro prev x h; exact absurd h (by simp [captureArgsList, lastOf])
  | cons t rest ih =>
    intro prev x h
    cases rest with
    | nil =>
      have hx : captureTok prev t = x := by
        simpa [captureArgsList, lastOf] using h
      by_cases h1 : prev = "-o"
      · left; rw [← hx, h1, captureTok_o]
      · by_cases h2 : prev = "-importcfg"
        · left; rw [← hx, h2, captureTok_icfg]
        · right
          rw [← hx, captureTok_other prev t h1 h2]
          rfl
    | cons r rs =>
      rw [captureArgsList_cons, captureArgsList_cons, lastOf_cons_cons,
        ← captureArgsList_cons] at h
      rcases ih (captureTok prev t) x h with h2 | h2
      · exact Or.inl h2
      · right
        rw [lastOf_cons_cons]
        exact h2

theorem goSplitCharList_sep_not_mem (sep : Char) :
    ∀ (cs : List Char), ∀ l ∈ goSplitCharList sep cs, sep ∉ l := by
  intro cs
  induction cs with
  | nil =>
    intro l hl
    have : l = [] := by simpa [goSplitCharList] using hl
    subst this
    simp
  | cons c rest ih =>
    intro l hl
    by_cases hc : c = sep
    · rw [show goSplitCharList sep (c :: rest) = [] :: goSplitCharList sep rest by
        simp [goSplitCharList, hc]] at hl
      rcases List.mem_cons.mp hl with rfl | h2
      · simp
      · exact ih l h2
    · cases hsplit : goSplitCharList sep rest with
      | nil =>
        rw [show goSplitCharList sep (c :: rest) = [[c]] by
          simp [goSplitCharList, hc, hsplit]] at hl
        have : l = [c] := by simpa using hl
        subst this
        intro hmem
        have : sep = c := by simpa using hmem
        exact hc this.symm
      | cons t ts =>
        rw [show goSplitCharList sep (c :: rest) = (c :: t) :: ts by
          simp [goSplitCharList, hc, hsplit]] at hl
        rcases List.mem_cons.mp hl with rfl | h2
        · intro hmem
          rcases List.mem_cons.mp hmem with h3 | h3
          · exact hc h3.symm
          · exact ih t (by rw [hsplit]; exact List.mem_cons_self t ts) h3
        · exact ih l (by rw [hsplit]; exact List.mem_cons_of_mem t h2)

theorem mem_goSplitSpace_no_space (s t : String) (ht : t ∈ goSplitSpace s) :
    ' ' ∉ t.toList := by
  unfold goSplitSpace goSplit at ht
  rcases List.mem_map.mp ht with ⟨l, hl, rfl⟩
  exact goSplitCharList_sep_not_mem ' ' s.toList l hl

/-! ## Claim theorems -/

/-- C1: the claim states that any mid-sequence failure of the capture write
path rolls the whole transaction back, leaving no partially-populated
LinkInvocation behind.  The code does the opposite: `writeToDB` defers
`tx.Commit()` unconditionally, so at this failing input (a malformed
`packagefile` line with no `=`) the capture errors out, yet the committed
store still contains the freshly inserted `link_command` row and its argument
rows — a partially-populated LinkInvocation visible to a later replay. -/
theorem c1_failed_capture_commits_partial_rows :
    (writeToDB emptyDB cfgFoo [cmdFoo] fcBroken).1.isSome = true
    ∧ (writeToDB emptyDB cfgFoo [cmdFoo] fcBroken).2.linkCommand = [⟨1, "foo", 1, none⟩]
    ∧ (writeToDB emptyDB cfgFoo [cmdFoo] fcBroken).2.linkCommandArgs ≠ []
    ∧ (writeToDB emptyDB cfgFoo [cmdFoo] fcBroken).2.linkCommandPackageFile = [] := by
  decide

/-- C3: the claim states that when the cache-warming loop exhausts its 3
attempts without stabilizing, the capture fails fatally without persisting the
unstable paths.  The code indeed bounds the loop at 3 attempts, but after the
loop `main` calls `writeToDB` unconditionally: at this failing input (every
attempt references `/tmp/scratch/m.a`, outside GOCACHE) the loop ends with the
stability check still false, yet the capture succeeds and the scratch path is
persisted as an Artifact. -/
theorem c3_exhausted_retries_still_persist :
    captureAttempts gocacheEx staleBuilds 0 3 false ([], []) = (3, false, staleResult)
    ∧ areAllFilesInCache gocacheEx staleResult.2 = false
    ∧ (captureMain gocacheEx staleBuilds emptyDB cfgFoo).1 = none
    ∧ (⟨1, "main", "/tmp/scratch/m.a"⟩ : PackageFileRow) ∈
        (captureMain gocacheEx staleBuilds emptyDB cfgFoo).2.packageFile := by
  decide

/-- C4 counterexample: the claim states that when removing the temporary
manifest file fails, execution still proceeds to the process-image
replacement.  In the code the failure path is `log.Fatalf`, which terminates
the process: at the concrete failing input the handoff is not reached. -/
theorem c4_counterexample :
    ReplayHandoff.reachesExec (afterLinkerSuccess false "icfg" "bin" "prog" []) = false := by
  decide

/-- C4 (amended): failure to remove the temporary manifest file is fatal —
the executor exits via `log.Fatalf` and the handoff to the linked binary does
not occur; only when the removal succeeds does the executor replace the
process image with the linked binary, forwarding the trailing arguments. -/
theorem c4_remove_failure_blocks_exec (icfg bin prog : String) (fwd : List String) :
    afterLinkerSuccess false icfg bin prog fwd = ReplayHandoff.fatalRemoveError icfg
    ∧ afterLinkerSuccess true icfg bin prog fwd = ReplayHandoff.execBinary bin (prog :: fwd) :=
  ⟨rfl, rfl⟩

theorem c4_witness :
    afterLinkerSuccess false "cfgfile" "binfile" "prog" ["x"] =
      ReplayHandoff.fatalRemoveError "cfgfile"
    ∧ afterLinkerSuccess true "cfgfile" "binfile" "prog" ["x"] =
        ReplayHandoff.execBinary "binfile" ["prog", "x"] :=
  c4_remove_failure_blocks_exec "cfgfile" "binfile" "prog" ["x"]

/-- C6 counterexample: the claim states that fingerprints ignore duplicate
tags because the canonical key is the sorted, deduplicated tag array.  The
code only sorts (`slices.Sort`) and never deduplicates: the tag lists
`["A", "A", "B"]` and `["A", "B"]` denote the same set of tags, yet their
fingerprints differ. -/
theorem c6_counterexample :
    (["A", "A", "B"] : List String).toFinset = (["A", "B"] : List String).toFinset
    ∧ fingerprint "foo" ["A", "A", "B"] ≠ fingerprint "foo" ["A", "B"] := by
  decide

/-- C6 (amended): the canonical key is the program name paired with the
sorted (not deduplicated) tag array, so fingerprints are equal for any two
tag lists that are permutations of the same multiset, regardless of input
order. -/
theorem c6_fingerprint_perm_invariant (program : String) (l1 l2 : List String)
    (h : l1.Perm l2) : fingerprint program l1 = fingerprint program l2 := by
  unfold fingerprint
  rw [goSortStrings_eq_of_perm l1 l2 h]

theorem c6_witness :
    fingerprint "foo" ["B", "A"] = fingerprint "foo" ["A", "B"] :=
  c6_fingerprint_perm_invariant "foo" ["B", "A"] ["A", "B"] (by decide)

/-- C9 counterexample: the claim states that a cache miss exits with a
distinct exit status different from the generic fatal-error status.  The
cache-miss branch calls `os.Exit(1)` while `log.Fatalf` also exits with
status 1: at the concrete input (an empty store) the two statuses are equal,
refuting the distinctness. -/
theorem c9_counterexample :
    getLinkCommandID emptyDB "foo" [] = LookupOutcome.cacheMiss "foo" [] 1
    ∧ lookupExitCode (getLinkCommandID emptyDB "foo" []) = some goLogFatalExitCode := by
  decide

/-- C9 (amended): a replay whose fingerprint was never captured reports the
dedicated cache-miss outcome (its own message naming the program and tags,
never a storage error), and exits with status 1 — which is the same numeric
status as the generic `log.Fatalf` fatal errors, not a distinct one. -/
theorem c9_cache_miss_not_distinct (db : DB) (binaryName : String) (buildTags : List String)
    (hmiss : findLinkCommandRow db binaryName buildTags = none) :
    getLinkCommandID db binaryName buildTags = LookupOutcome.cacheMiss binaryName buildTags 1
    ∧ lookupExitCode (getLinkCommandID db binaryName buildTags) = some goLogFatalExitCode := by
  unfold getLinkCommandID
  rw [hmiss]
  exact ⟨rfl, rfl⟩

theorem c9_witness :
    getLinkCommandID emptyDB "bar" ["A"] = LookupOutcome.cacheMiss "bar" ["A"] 1
    ∧ lookupExitCode (getLinkCommandID emptyDB "bar" ["A"]) = some goLogFatalExitCode :=
  c9_cache_miss_not_distinct emptyDB "bar" ["A"] (by decide)

/-- C10: capture tokenizes the link command by splitting on the space
character, so no literal Argument token contains a space; in particular no
literal token can equal the two-word sentinel `MAIN PACKAGE`, which at replay
is therefore unambiguously the entry-artifact placeholder (resolved to the
entry artifact's path whatever precedes it), whereas the one-word sentinel
`PLACEHOLDER` is resolved only when preceded by `-o` or `-importcfg` and is
passed through unchanged after any other token. -/
theorem c10_sentinel_invariant (s t prev binName icfgName mainPkg : String)
    (ht : t ∈ goSplitSpace s) (hp1 : prev ≠ "-o") (hp2 : prev ≠ "-importcfg") :
    (' ' ∈ t.toList → False)
    ∧ t ≠ "MAIN PACKAGE"
    ∧ resolveTok binName icfgName mainPkg prev "PLACEHOLDER" = "PLACEHOLDER"
    ∧ resolveTok binName icfgName mainPkg prev "MAIN PACKAGE" = mainPkg := by
  have hns := mem_goSplitSpace_no_space s t ht
  refine ⟨fun h => hns h, ?_, ?_, ?_⟩
  · intro h
    subst h
    exact hns (by decide)
  · exact resolveTok_placeholder_other _ _ _ _ hp1 hp2
  · exact resolveTok_mainpkg _ _ _ _

theorem c10_witness :
    ((' ' ∈ ("a" : String).toList → False)
    ∧ ("a" : String) ≠ "MAIN PACKAGE"
    ∧ resolveTok "B" "N" "M" "x" "PLACEHOLDER" = "PLACEHOLDER"
    ∧ resolveTok "B" "N" "M" "x" "MAIN PACKAGE" = "M") :=
  c10_sentinel_invariant "a b" "a" "x" "B" "N" "M" (by decide) (by decide) (by decide)

/-- C7 counterexample: the claim states that while a staged file is active,
every line other than the terminator is appended as content — in particular a
`NAME=VALUE` line inside an active staged file becomes file content, not a
variable declaration.  In the code the variable-declaration case precedes the
active-file case in the `switch`: at this concrete trace (a staged file `f`
whose single content line is `FOO=bar`) the line is swallowed as a variable
declaration and the parser returns no staged-file content at all, instead of
`f` holding `["FOO=bar"]`. -/
theorem c7_counterexample :
    (parseGoBuildOutput "/toolchain" envInFileTrace).2 = []
    ∧ (parseGoBuildOutput "/toolchain" envInFileTrace).1 = [] := by
  decide

/-- C7 (amended): the parser's real priority while a staged file is active:
a line matching `NAME=VALUE` is always recorded as a variable declaration
(file contents untouched, active file unchanged); otherwise the exact line
`EOF` closes the active file; otherwise the line — including one matching the
begin-staged-file marker — is appended verbatim to the active file's content
buffer and the active file stays the same. -/
theorem c7_active_file_priority (toolDir : String) (st : ParseState) (line : String)
    (hactive : st.currentFile ≠ "") :
    (∀ n v, matchEnvVarDef line = some (n, v) →
      classifyLine toolDir st line = { st with envVarMap := mapSet st.envVarMap n v })
    ∧ (matchEnvVarDef line = none → line = "EOF" →
        classifyLine toolDir st line = { st with currentFile := "" })
    ∧ (matchEnvVarDef line = none → line ≠ "EOF" →
        classifyLine toolDir st line =
          { st with filesContent := mapAppend st.filesContent st.currentFile line }) := by
  refine ⟨?_, ?_, ?_⟩
  · intro n v h
    unfold classifyLine
    rw [h]
  · intro h1 h2
    unfold classifyLine
    rw [h1, if_pos h2]
  · intro h1 h2
    unfold classifyLine
    rw [h1, if_neg h2, if_pos hactive]

theorem c7_witness :
    classifyLine "/td" ⟨"f", [], [], []⟩ "FOO=bar" =
      { (⟨"f", [], [], []⟩ : ParseState) with envVarMap := mapSet [] "FOO" "bar" } :=
  (c7_active_file_priority "/td" ⟨"f", [], [], []⟩ "FOO=bar" (by decide)).1
    "FOO" "bar" (by decide)

theorem insertBuildTags_preserves (db : DB) (tags : List String) :
    (insertBuildTags db tags).2.linkCommand = db.linkCommand
    ∧ (insertBuildTags db tags).2.linkCommandArgs = db.linkCommandArgs := by
  unfold insertBuildTags
  cases db.buildTags.find? (fun r => r.tags == tags) <;> exact ⟨rfl, rfl⟩

theorem insertLinkCommand_dup (db : DB) (bn : String) (btID : Nat) (cmd : String)
    (hdup : db.linkCommand.any (fun r => r.binaryName == bn && r.buildTagsID == btID) = true) :
    insertLinkCommand db bn btID cmd =
      (.error "unable to insert link command: UNIQUE constraint failed", db) := by
  unfold insertLinkCommand
  rw [hdup]
  simp

/-- C5 counterexample: the claim states that a second capture of an already
stored `(program, TagSet)` key succeeds, reusing the row and appending its
children.  On the code, the second capture of the same key fails: the plain
`INSERT INTO link_command` violates the `UNIQUE (binary_name, build_tags_id)`
constraint and the error aborts the capture, leaving the store unchanged. -/
theorem c5_counterexample :
    (writeToDB emptyDB cfgFoo [cmdFoo] fcGood).1 = none
    ∧ (writeToDB dbAfterFirstCapture cfgFoo [cmdFoo] fcGood).1.isSome = true
    ∧ (writeToDB dbAfterFirstCapture cfgFoo [cmdFoo] fcGood).2.linkCommand =
        dbAfterFirstCapture.linkCommand := by
  decide

/-- C5 (amended): whenever the store already holds a `link_command` row for
the key (program name, TagSet id of the capture's tags), a re-capture of that
key does not reuse the existing row or append to it: `insertLinkCommand`'s
plain insert hits the uniqueness constraint, the capture returns an error, and
neither the invocation table nor the argument table changes.  (The fallback
SELECT in the Go code is unreachable because the failed insert returns first.) -/
theorem c5_recapture_fails (db : DB) (cfg : CaptureConfig) (cmd : String)
    (cmds : List String) (fc : List (String × List String))
    (hdup : db.linkCommand.any (fun r =>
      r.binaryName == cfg.binaryName &&
        r.buildTagsID == (insertBuildTags db cfg.buildTags).1) = true) :
    (writeToDB db cfg (cmd :: cmds) fc).1.isSome = true
    ∧ (writeToDB db cfg (cmd :: cmds) fc).2.linkCommand = db.linkCommand
    ∧ (writeToDB db cfg (cmd :: cmds) fc).2.linkCommandArgs = db.linkCommandArgs := by
  have hpres := insertBuildTags_preserves db cfg.buildTags
  have hdup2 : (insertBuildTags db cfg.buildTags).2.linkCommand.any
      (fun r => r.binaryName == cfg.binaryName &&
        r.buildTagsID == (insertBuildTags db cfg.buildTags).1) = true := by
    rw [hpres.1]
    exact hdup
  simp only [writeToDB, writeLinkCommands]
  rw [insertLinkCommand_dup _ _ _ _ hdup2]
  exact ⟨rfl, hpres.1, hpres.2⟩

theorem c5_witness :
    (writeToDB dbAfterFirstCapture cfgFoo [cmdFoo] fcGood).1.isSome = true
    ∧ (writeToDB dbAfterFirstCapture cfgFoo [cmdFoo] fcGood).2.linkCommand =
        dbAfterFirstCapture.linkCommand
    ∧ (writeToDB dbAfterFirstCapture cfgFoo [cmdFoo] fcGood).2.linkCommandArgs =
        dbAfterFirstCapture.linkCommandArgs :=
  c5_recapture_fails dbAfterFirstCapture cfgFoo cmdFoo [] fcGood (by decide)

/-- C8: when the last stored argument of an invocation equals the file path of
a stored Artifact (unique on its file path, so the two lookups agree on the
same row `pf`), `updateLinkCommand` records that Artifact as the invocation's
entry-artifact reference (`main_package_id`) and rewrites each argument row of
the invocation holding that literal — the last one in particular — to the
`MAIN PACKAGE` placeholder. -/
theorem c8_entry_artifact (db : DB) (id : Nat) (f : String) (pf : PackageFileRow)
    (hlast : lastArgOf db.linkCommandArgs id = some f)
    (hfind : db.packageFile.find? (fun r => r.file == f) = some pf)
    (hfind2 : db.packageFile.find? (fun r => r.id == pf.id) = some pf) :
    pf.file = f
    ∧ (∀ r ∈ (updateLinkCommand db id).linkCommand, r.id = id →
        r.mainPackageID = some pf.id)
    ∧ (∀ r ∈ db.linkCommandArgs, r.linkCommandID = id → r.arg = f →
        (⟨id, r.pos, "MAIN PACKAGE"⟩ : ArgRow) ∈ (updateLinkCommand db id).linkCommandArgs) := by
  have hpf : pf.file = f := by
    have := List.find?_some hfind
    simpa [beq_iff_eq] using this
  have hlc : (updateLinkCommand db id).linkCommand =
      db.linkCommand.map (fun (r : LinkCommandRow) =>
        if r.id == id then { r with mainPackageID := some pf.id } else r) := by
    unfold updateLinkCommand
    rw [hlast]
    simp only [Option.some_bind]
    rw [hfind]
    rfl
  have hargs : (updateLinkCommand db id).linkCommandArgs =
      db.linkCommandArgs.map (fun (r : ArgRow) =>
        if r.linkCommandID == id && some r.arg == some f then
          { r with arg := "MAIN PACKAGE" }
        else r) := by
    unfold updateLinkCommand
    rw [hlast]
    simp only [Option.some_bind]
    rw [hfind]
    simp only [Option.map_some', Option.some_bind]
    simp only [hfind2, Option.map_some', hpf]
  refine ⟨hpf, ?_, ?_⟩
  · intro r hr hid
    rw [hlc] at hr
    rcases List.mem_map.mp hr with ⟨a, _, rfl⟩
    by_cases hha : (a.id == id) = true
    · simp [hha]
    · rw [if_neg (by simp [hha])] at hid ⊢
      exact absurd (beq_iff_eq.mpr hid) (by simp [hha])
  · intro r hr hid harg
    rw [hargs]
    have heq : (⟨id, r.pos, "MAIN PACKAGE"⟩ : ArgRow) =
        (fun (a : ArgRow) =>
          if a.linkCommandID == id && some a.arg == some f then
            { a with arg := "MAIN PACKAGE" }
          else a) r := by
      obtain ⟨rl, rp, ra⟩ := r
      simp only at hid harg
      subst hid
      subst harg
      simp
    rw [heq]
    exact List.mem_map_of_mem _ hr

theorem c8_witness :
    (⟨1, 4, "MAIN PACKAGE"⟩ : ArgRow) ∈ (updateLinkCommand dbEntryArtifact 1).linkCommandArgs :=
  (c8_entry_artifact dbEntryArtifact 1 "/cache/ab/main.a" ⟨1, "main", "/cache/ab/main.a"⟩
    (by decide) (by decide) (by decide)).2.2 ⟨1, 4, "/cache/ab/main.a"⟩ (by decide) rfl rfl

/-- C2: for a captured link command line (well-formed: no token collides with
the sentinels, no placeholder-consuming flag directly follows another, and the
last stored argument is the file path `f` of a stored Artifact), replaying
immediately after capture — resolving the rewritten stored argument stream
with a fresh output path, a fresh manifest path and the stored entry-artifact
path — produces exactly the spec-side expected vector: position by position
the whitespace-tokenization of the original line, except that the token after
`-o` is the fresh output path and the token after `-importcfg` is the fresh
manifest path; the entry-artifact position holds `f`, which equals the
original last token, and the stored vector marks it `MAIN PACKAGE`. -/
theorem c2_replay_matches_capture (cmd binName icfgName f : String)
    (pkgs : List PackageFileRow) (pf : PackageFileRow)
    (hchain : goodChainB "" (goSplitSpace cmd) = true)
    (hlast : lastOf (captureArgsList "" (goSplitSpace cmd)) = some f)
    (hfind : pkgs.find? (fun r => r.file == f) = some pf)
    (hb3 : binName ≠ "MAIN PACKAGE") (hbo : isLinkFlag binName = false)
    (hn3 : icfgName ≠ "MAIN PACKAGE") (hno : isLinkFlag icfgName = false)
    (hfo : isLinkFlag f = false) (hf3 : f ≠ "PLACEHOLDER") (hf4 : f ≠ "MAIN PACKAGE") :
    replayArgsList binName icfgName f ""
        (rewriteMain f (captureArgsList "" (goSplitSpace cmd)))
      = specReplayVector binName icfgName (goSplitSpace cmd)
    ∧ mainFileOf pkgs (captureArgsList "" (goSplitSpace cmd)) = some f
    ∧ lastOf (goSplitSpace cmd) = some f
    ∧ lastOf (rewriteMain f (captureArgsList "" (goSplitSpace cmd))) = some "MAIN PACKAGE" := by
  have hpf : pf.file = f := by
    have := List.find?_some hfind
    simpa [beq_iff_eq] using this
  refine ⟨?_, ?_, ?_, ?_⟩
  · exact replayReconstructionAux binName icfgName f hb3 hbo hn3 hno hfo hf3 hf4
      (goSplitSpace cmd) "" "" "" hchain
      (iff_of_false (by decide) (by decide)) (iff_of_false (by decide) (by decide))
      (iff_of_false (by decide) (by decide)) (iff_of_false (by decide) (by decide))
  · unfold mainFileOf
    rw [hlast]
    simp only [Option.some_bind]
    rw [hfind]
    simp [hpf]
  · rcases lastOf_captureArgsList (goSplitSpace cmd) "" f hlast with h | h
    · exact absurd h hf3
    · exact h
  · unfold rewriteMain
    rw [lastOf_map, hlast]
    simp

theorem c2_witness :
    replayArgsList "/tmp/out" "/tmp/icfg" "/ca/m.a" ""
        (rewriteMain "/ca/m.a" (captureArgsList "" (goSplitSpace "-o X -importcfg C -s /ca/m.a")))
      = specReplayVector "/tmp/out" "/tmp/icfg" (goSplitSpace "-o X -importcfg C -s /ca/m.a")
    ∧ mainFileOf [⟨1, "main", "/ca/m.a"⟩]
        (captureArgsList "" (goSplitSpace "-o X -importcfg C -s /ca/m.a")) = some "/ca/m.a"
    ∧ lastOf (goSplitSpace "-o X -importcfg C -s /ca/m.a") = some "/ca/m.a"
    ∧ lastOf (rewriteMain "/ca/m.a"
        (captureArgsList "" (goSplitSpace "-o X -importcfg C -s /ca/m.a"))) =
          some "MAIN PACKAGE" :=
  c2_replay_matches_capture "-o X -importcfg C -s /ca/m.a" "/tmp/out" "/tmp/icfg" "/ca/m.a"
    [⟨1, "main", "/ca/m.a"⟩] ⟨1, "main", "/ca/m.a"⟩ (by decide) (by decide) (by decide)
    (by decide) (by decide) (by decide) (by decide) (by decide) (by decide) (by decide)
